import Mathlib

/-!
# Verification of the deadbeefbot article-history merge engine

A shallow embedding of the merge-and-status-resolution engine of the
deadbeefbot repository, translated from `src/articlehistory/types.rs`,
`src/articlehistory/builder.rs`, `src/articlehistory/extractors/*.rs`,
`src/articlehistory.rs` and `src/lib.rs`, together with theorems checking
the natural-language specification against it.

Machine integers (`i64` timestamps) are modelled as `Int`; the external
`timelib::strtotime` date grammar is modelled as an explicit `parse`
parameter, since it is outside the core.  Strings are manipulated through
their character lists to keep every definition kernel-executable.
-/

namespace DeadbeefBot

/-- From `PreserveDate` in `types.rs`: a parsed instant plus the verbatim
original text. The instant is an `i64` unix timestamp, modelled as `Int`. -/
structure PreserveDate where
  date : Int
  orig : String
deriving Repr, DecidableEq

/-- From `PreserveDate::try_from_string` in `types.rs`: the external
`timelib::strtotime` grammar is passed in as `parse`; on success the
original text is stored untouched alongside the parsed instant. -/
def PreserveDate.tryFromString (parse : String → Except String Int)
    (x : String) : Except String PreserveDate :=
  match parse x with
  | .error e => .error e
  | .ok d => .ok ⟨d, x⟩

/-- From `ActionKind` in `types.rs`: closed enumeration of the 22 action codes. -/
inductive ActionKind where
  | fac | far | rbp | bp | flc | flr | ftc | ftr | fproc | fpor | gan
  | gar | gtc | pr | wpr | war | afd | mfd | tfd | csd | prod | drv
deriving Repr, DecidableEq

/-- From `ActionKind::as_str` in `types.rs`. -/
def ActionKind.asStr : ActionKind → String
  | .fac => "FAC" | .far => "FAR" | .rbp => "RBP" | .bp => "BP"
  | .flc => "FLC" | .flr => "FLR" | .ftc => "FTC" | .ftr => "FTR"
  | .fproc => "FPROC" | .fpor => "FPOR" | .gan => "GAN" | .gar => "GAR"
  | .gtc => "GTC" | .pr => "PR" | .wpr => "WPR" | .war => "WAR"
  | .afd => "AFD" | .mfd => "MFD" | .tfd => "TFD" | .csd => "CSD"
  | .prod => "PROD" | .drv => "DRV"

/-- From `Action` in `types.rs`. -/
structure Action where
  kind : ActionKind
  date : PreserveDate
  link : Option String := none
  result : Option String := none
  oldid : Option String := none
deriving Repr, DecidableEq

/-- ASCII lowercasing of a character, as Rust `to_ascii_lowercase`. -/
def lowerChar (c : Char) : Char :=
  if 'A' ≤ c ∧ c ≤ 'Z' then Char.ofNat (c.toNat + 32) else c

/-- ASCII lowercasing of a string, as Rust `str::to_ascii_lowercase`. -/
def asciiLower (s : String) : String := ⟨s.data.map lowerChar⟩

/-- From `Action::opt_to_current_status` in `types.rs`: the fixed lookup
table from `(kind, lowercased result text)` to an optional status token.
Each `if` chain mirrors one or-pattern arm of the Rust `match`. -/
def Action.optToCurrentStatus (a : Action) : Except String (Option String) :=
  let res := a.result.map asciiLower
  match a.kind with
  | .fac =>
    if res ∈ [some "promoted", some "pass", some "passed"] then .ok (some "FA")
    else if res ∈ [some "not promoted", some "fail", some "failed"] then .ok (some "FFAC")
    else .error "unknown fac"
  | .far =>
    if res ∈ [some "kept", some "pass", some "passed", some "keep"] then .ok (some "FA")
    else if res ∈ [some "demoted", some "removed", some "remove", some "fail", some "failed"] then .ok (some "FFA")
    else .error "unknown far"
  | .rbp => .error "idk how to deal with rbp"
  | .bp => .ok none
  | .flc =>
    if res ∈ [some "promoted", some "pass", some "passed"] then .ok (some "FL")
    else if res ∈ [some "not promoted", some "fail", some "failed"] then .ok (some "FFLC")
    else .error "unknown flc"
  | .flr =>
    if res ∈ [some "kept", some "pass", some "passed", some "keep"] then .ok (some "FL")
    else if res ∈ [some "demoted", some "removed", some "remove", some "fail", some "failed"] then .ok (some "FFL")
    else .error "unknown flr"
  | .ftc => .ok none
  | .ftr => .ok none
  | .fproc =>
    if res ∈ [some "promoted", some "pass", some "passed"] then .ok (some "FPO")
    else if res ∈ [some "not promoted", some "fail", some "failed"] then .ok (some "FFPOC")
    else .error "unknown fproc"
  | .fpor =>
    if res ∈ [some "kept", some "pass", some "passed", some "keep"] then .ok (some "FPO")
    else if res ∈ [some "demoted", some "removed", some "remove", some "fail", some "failed"] then .ok (some "FFPO")
    else .error "unknown fpor"
  | .gan =>
    if res ∈ [some "listed", some "promoted", some "pass", some "passed"] then .ok (some "GA")
    else if res ∈ [some "not listed", some "not promoted", some "fail", some "failed"] then .ok (some "FGAN")
    else .error "unknown gan"
  | .gar =>
    if res ∈ [some "kept", some "pass", some "passed", some "keep"] then .ok (some "GA")
    else if res ∈ [some "delisted", some "fail", some "failed"] then .ok (some "DGA")
    else .error "unknown gar"
  | .gtc => .ok none
  | .pr => .ok none
  | .wpr => .ok none
  | .war => .ok none
  | .afd => .ok none
  | .mfd => .ok none
  | .tfd => .ok none
  | .csd => .ok none
  | .prod => .ok none
  | .drv => .ok none

/-- From `Dyk` in `types.rs`. -/
structure Dyk where
  date : PreserveDate
  entry : Option String := none
  nom : Option String := none
  ignoreerror : Bool := false
deriving Repr, DecidableEq

/-- From `Itn` in `types.rs`. -/
structure Itn where
  date : PreserveDate
  link : Option String := none
deriving Repr, DecidableEq

/-- From `Otd` in `types.rs`. -/
structure Otd where
  date : PreserveDate
  oldid : Option String := none
  link : Option String := none
deriving Repr, DecidableEq

/-- From `FeaturedTopic` in `types.rs`. -/
structure FeaturedTopic where
  name : String
  main : Bool := false
deriving Repr, DecidableEq

/-- From `ArticleHistory` in `types.rs`: the canonical aggregate. -/
structure ArticleHistory where
  actions : List Action := []
  currentstatus : Option String := none
  maindate : Option PreserveDate := none
  maindate2 : Option PreserveDate := none
  itns : List Itn := []
  dyks : List Dyk := []
  otds : List Otd := []
  four : Bool := false
  featured_topics : List FeaturedTopic := []
  topic : Option String := none
  collapse : Bool := false
  small : Bool := false
deriving Repr, DecidableEq

/-- The comparison key of `self.actions.sort_by_key(|action| action.date.date)`. -/
def actLE (a b : Action) : Prop := a.date.date ≤ b.date.date

instance : DecidableRel actLE := fun a b => Int.decLe a.date.date b.date.date

/-- Rust `Vec::sort_by_key` is a stable ascending sort; insertion sort has
exactly that semantics. -/
def sortActions (l : List Action) : List Action := l.insertionSort actLE

/-- The token-collection pass of `sort_and_update_status`:
`actions.iter().filter_map(|a| a.opt_to_current_status().transpose()).collect::<Result<Vec<_>>>()`.
The first decode error aborts; `None` tokens are skipped. -/
def collectTokens : List Action → Except String (List String)
  | [] => .ok []
  | a :: as_ =>
    match a.optToCurrentStatus with
    | .error e => .error e
    | .ok t =>
      match collectTokens as_ with
      | .error e => .error e
      | .ok rest =>
        match t with
        | none => .ok rest
        | some s => .ok (s :: rest)

/-- The tokens of the first `retain` arm `"GA" | "FGAN" | "DGA"`. -/
def gaRemove (x : String) : Bool := x == "GA" || x == "FGAN" || x == "DGA"

/-- The tokens of the second `retain` arm `"FFA" | "FA" | "GA" | "FGAN" | "DGA"`. -/
def gaSet (x : String) : Bool :=
  x == "FFA" || x == "FA" || x == "GA" || x == "FGAN" || x == "DGA"

/-- First `retain` pass of `sort_and_update_status` (the `found_ga` filter):
walks the tokens most-recent first, dropping every further GA-track token
once a GA-related token has been seen. -/
def gaFilter (found : Bool) : List String → List String
  | [] => []
  | x :: xs =>
    if gaRemove x && found then gaFilter found xs
    else if gaSet x then x :: gaFilter true xs
    else x :: gaFilter found xs

/-- Rust `str::starts_with('F')` on a token. -/
def startsWithF (x : String) : Bool :=
  match x.data with
  | [] => false
  | c :: _ => c == 'F'

/-- Second `retain` pass of `sort_and_update_status` (the `found_fa` filter):
keeps `"FGAN"` unconditionally, and caps the `'F'`-prefixed tokens at one. -/
def faFilter (found : Bool) : List String → List String
  | [] => []
  | x :: xs =>
    if x == "FGAN" then x :: faFilter found xs
    else if startsWithF x && found then faFilter found xs
    else if startsWithF x then x :: faFilter true xs
    else x :: faFilter found xs

/-- Steps 2-4 of the resolution algorithm applied to an already-sorted
action list: map to tokens, reverse to most-recent-first, run the two
filters, join with `/` (the Rust loop that pushes `/` before every token
but the first is exactly `String.intercalate`). -/
def computeStatus (acts : List Action) : Except String String :=
  (collectTokens acts).map fun toks =>
    String.intercalate "/" (faFilter false (gaFilter false toks.reverse))

/-- Rust `str::contains(&str)`: substring containment. -/
def strContains (hay pat : String) : Bool := decide (pat.data <:+: hay.data)

/-- From `ArticleHistory::sort_and_update_status` in `types.rs`, as a pure
function on the aggregate: sort the actions by date, compute the status,
reject non-whitelisted multi-token results, reject a declared status that
neither equals the computed one nor passes the `/`-substring test, and
finally overwrite `currentstatus` with the computed status. -/
def ArticleHistory.sortAndUpdateStatus (ah : ArticleHistory) :
    Except String ArticleHistory :=
  match computeStatus (sortActions ah.actions) with
  | .error e => .error e
  | .ok status =>
    if status.data.contains '/' && !(status == "FFA/GA" || status == "FFAC/GA") then
      .error ("multi-status is invalid: " ++ status)
    else if ah.currentstatus.any fun orig =>
        orig != status && !(strContains status ("/" ++ orig))
          && !(strContains status (orig ++ "/")) then
      .error "current status mismatch"
    else
      .ok { ah with actions := sortActions ah.actions, currentstatus := some status }

instance {e a : Type} [DecidableEq e] [DecidableEq a] : DecidableEq (Except e a)
  | .ok x, .ok y => if h : x = y then .isTrue (by rw [h]) else .isFalse (by simp [h])
  | .error x, .error y => if h : x = y then .isTrue (by rw [h]) else .isFalse (by simp [h])
  | .ok _, .error _ => .isFalse (by simp)
  | .error _, .ok _ => .isFalse (by simp)

/-! ## Structural facts about the two token filters -/

theorem gaRemove_gaSet {x : String} (h : gaRemove x = true) : gaSet x = true := by
  simp only [gaRemove, Bool.or_eq_true, beq_iff_eq] at h
  simp only [gaSet, Bool.or_eq_true, beq_iff_eq]
  tauto

/-- Once a GA-related token has been seen, the first filter drops every
further GA-track token and keeps everything else. -/
theorem gaFilter_true (l : List String) :
    gaFilter true l = l.filter fun x => !gaRemove x := by
  induction l with
  | nil => rfl
  | cons x xs ih =>
    by_cases h : gaRemove x = true
    · simp [gaFilter, h, ih, gaRemove_gaSet h]
    · simp only [Bool.not_eq_true] at h
      by_cases hs : gaSet x = true <;> simp [gaFilter, h, hs, ih]

/-- What the first filter keeps after the first GA-related token. -/
def gaRest : List String → List String
  | [] => []
  | x :: xs => x :: (xs.filter fun y => !gaRemove y)

/-- Full characterisation of the first `retain` pass: every token before
the first GA-related one survives, the first GA-related token survives,
and after it every GA-track token (`GA`/`FGAN`/`DGA`) is dropped. -/
theorem gaFilter_false_eq (l : List String) :
    gaFilter false l =
      (l.takeWhile fun x => !gaSet x) ++ gaRest (l.dropWhile fun x => !gaSet x) := by
  induction l with
  | nil => rfl
  | cons x xs ih =>
    by_cases hs : gaSet x = true
    · simp [gaFilter, hs, List.takeWhile_cons, List.dropWhile_cons, gaRest, gaFilter_true]
    · have hr : gaRemove x = false := by
        cases h : gaRemove x
        · rfl
        · exact absurd (gaRemove_gaSet h) (by simp [hs])
      simp only [Bool.not_eq_true] at hs
      simp [gaFilter, hs, hr, List.takeWhile_cons, List.dropWhile_cons, ih]

/-- At most one GA-track token survives the first filter. -/
theorem gaFilter_false_countP (l : List String) :
    (gaFilter false l).countP gaRemove ≤ 1 := by
  rw [gaFilter_false_eq, List.countP_append]
  have h1 : ((l.takeWhile fun x => !gaSet x).countP gaRemove) = 0 := by
    rw [List.countP_eq_zero]
    intro a ha
    have hm : gaSet a = false := by simpa using List.mem_takeWhile_imp ha
    cases h : gaRemove a
    · simp
    · rw [gaRemove_gaSet h] at hm
      cases hm
  have h2 : (gaRest (l.dropWhile fun x => !gaSet x)).countP gaRemove ≤ 1 := by
    cases hd : l.dropWhile fun x => !gaSet x with
    | nil => simp [gaRest]
    | cons y ys =>
      have hz : ((ys.filter fun y => !gaRemove y).countP gaRemove) = 0 := by
        rw [List.countP_eq_zero]
        intro a ha
        simp only [List.mem_filter] at ha
        simpa using ha.2
      simp [gaRest, List.countP_cons, hz]
      split <;> omega
  omega

/-- The guard under which the second filter keeps a token once an
`F`-prefixed token has been seen. -/
def faPass (x : String) : Bool := x == "FGAN" || !startsWithF x

/-- Once an `F`-prefixed token has been seen, the second filter drops every
further `F`-prefixed token except `FGAN`. -/
theorem faFilter_true (l : List String) :
    faFilter true l = l.filter faPass := by
  induction l with
  | nil => rfl
  | cons x xs ih =>
    by_cases hg : x = "FGAN"
    · simp [faFilter, hg, faPass, ih]
    · by_cases hf : startsWithF x = true <;>
        simp [faFilter, hg, hf, faPass, ih]

/-- What the second filter keeps after the first capped `F` token. -/
def faRest : List String → List String
  | [] => []
  | x :: xs => x :: xs.filter faPass

/-- A token passing `faPass` is kept by the second filter with the flag
left untouched. -/
theorem faFilter_false_cons_of_pass {x : String} (xs : List String)
    (hp : faPass x = true) :
    faFilter false (x :: xs) = x :: faFilter false xs := by
  by_cases hg : x = "FGAN"
  · simp [faFilter, hg]
  · have hsw : startsWithF x = false := by
      cases h : startsWithF x
      · rfl
      · simp [faPass, beq_iff_eq, hg, h] at hp
    simp [faFilter, hg, hsw, beq_iff_eq]

/-- Full characterisation of the second `retain` pass. -/
theorem faFilter_false_eq (l : List String) :
    faFilter false l = (l.takeWhile faPass) ++ faRest (l.dropWhile faPass) := by
  induction l with
  | nil => rfl
  | cons x xs ih =>
    by_cases hp : faPass x = true
    · rw [faFilter_false_cons_of_pass xs hp, List.takeWhile_cons, List.dropWhile_cons]
      simp [hp, ih]
    · have hg : ¬(x = "FGAN") := by
        intro hx; simp [hx, faPass] at hp
      have hf : startsWithF x = true := by
        by_cases h : startsWithF x = true
        · exact h
        · simp [faPass, h] at hp
      have hstep : faFilter false (x :: xs) = x :: faFilter true xs := by
        simp [faFilter, hg, hf, beq_iff_eq]
      rw [hstep, List.takeWhile_cons, List.dropWhile_cons]
      simp only [Bool.not_eq_true] at hp
      simp [hp, faRest, faFilter_true]

/-- At most one `F`-prefixed token other than `FGAN` survives the second
filter. -/
theorem faFilter_false_countP (l : List String) :
    (faFilter false l).countP (fun x => startsWithF x && !(x == "FGAN")) ≤ 1 := by
  rw [faFilter_false_eq, List.countP_append]
  have hcap : ∀ a : String, (startsWithF a && !(a == "FGAN")) = !faPass a := by
    intro a
    by_cases hg : a = "FGAN" <;> by_cases hf : startsWithF a = true <;>
      simp [faPass, hg, hf]
  have h1 : ((l.takeWhile faPass).countP fun x => startsWithF x && !(x == "FGAN")) = 0 := by
    rw [List.countP_eq_zero]
    intro a ha
    have hm := List.mem_takeWhile_imp ha
    simp [hcap, hm]
  have h2 : ((faRest (l.dropWhile faPass)).countP fun x => startsWithF x && !(x == "FGAN")) ≤ 1 := by
    cases hd : l.dropWhile faPass with
    | nil => simp [faRest]
    | cons y ys =>
      have hz : ((ys.filter faPass).countP fun x => startsWithF x && !(x == "FGAN")) = 0 := by
        rw [List.countP_eq_zero]
        intro a ha
        simp only [List.mem_filter] at ha
        simp [hcap, ha.2]
      simp [faRest, List.countP_cons, hz]
      split <;> omega
  omega

/-- Token `FGAN` is exempt from the second filter: its multiplicity is preserved. -/
theorem faFilter_count_fgan (found : Bool) (l : List String) :
    (faFilter found l).count "FGAN" = l.count "FGAN" := by
  induction l generalizing found with
  | nil => rfl
  | cons x xs ih =>
    by_cases hg : x = "FGAN"
    · simp [faFilter, hg, List.count_cons, ih]
    · have hg2 : ¬("FGAN" = x) := fun h => hg h.symm
      by_cases hf : startsWithF x = true
      · cases found
        · simp [faFilter, hg, hf, List.count_cons, ih, beq_iff_eq, hg2]
        · simp [faFilter, hg, hf, List.count_cons, ih, beq_iff_eq, hg2]
      · simp [faFilter, hg, hf, List.count_cons, ih, beq_iff_eq, hg2]

/-- Membership in the output of the second filter implies membership in its
input. -/
theorem mem_faFilter {x : String} {found : Bool} {l : List String}
    (h : x ∈ faFilter found l) : x ∈ l := by
  induction l generalizing found with
  | nil => simpa [faFilter] using h
  | cons y ys ih =>
    by_cases hg : y = "FGAN"
    · rcases (by simpa [faFilter, hg] using h : x = y ∨ x ∈ faFilter found ys) with h | h
      · simp [h]
      · exact List.mem_cons_of_mem _ (ih h)
    · by_cases hf : startsWithF y = true
      · cases found
        · rcases (by simpa [faFilter, hg, hf] using h : x = y ∨ x ∈ faFilter true ys) with h | h
          · simp [h]
          · exact List.mem_cons_of_mem _ (ih h)
        · exact List.mem_cons_of_mem _ (ih (by simpa [faFilter, hg, hf] using h))
      · rcases (by simpa [faFilter, hg, hf] using h : x = y ∨ x ∈ faFilter found ys) with h | h
        · simp [h]
        · exact List.mem_cons_of_mem _ (ih h)

/-- The second filter never drops the head of its input when no
`F`-prefixed token has been seen yet. -/
theorem faFilter_false_cons (x : String) (xs : List String) :
    ∃ st, faFilter false (x :: xs) = x :: faFilter st xs := by
  by_cases hg : x = "FGAN"
  · exact ⟨false, by simp [faFilter, hg]⟩
  · by_cases hf : startsWithF x = true
    · exact ⟨true, by simp [faFilter, hg, hf, beq_iff_eq]⟩
    · exact ⟨false, by simp [faFilter, hg, hf, beq_iff_eq]⟩

/-- The surviving token list `["FFA", "GA"]` is unreachable: the first
filter drops every `GA` that is older than an `FFA`. -/
theorem ffa_ga_unreachable (l : List String) :
    faFilter false (gaFilter false l) ≠ ["FFA", "GA"] := by
  cases l with
  | nil => simp [gaFilter, faFilter]
  | cons x xs =>
    intro heq
    by_cases hs : gaSet x = true
    · have hg : gaFilter false (x :: xs) = x :: gaFilter true xs := by
        simp [gaFilter, hs]
      rw [hg] at heq
      obtain ⟨st, hst⟩ := faFilter_false_cons x (gaFilter true xs)
      rw [hst] at heq
      have hx : x = "FFA" := (List.cons_eq_cons.mp heq).1
      have htl : faFilter st (gaFilter true xs) = ["GA"] :=
        (List.cons_eq_cons.mp heq).2
      have hmem : "GA" ∈ gaFilter true xs :=
        mem_faFilter (by rw [htl]; simp)
      rw [gaFilter_true] at hmem
      simp only [List.mem_filter, Bool.not_eq_true] at hmem
      simp [gaRemove] at hmem
    · have hr : gaRemove x = false := by
        cases h : gaRemove x
        · rfl
        · exact absurd (gaRemove_gaSet h) (by simp [hs])
      have hg : gaFilter false (x :: xs) = x :: gaFilter false xs := by
        simp only [Bool.not_eq_true] at hs
        simp [gaFilter, hs, hr]
      rw [hg] at heq
      obtain ⟨st, hst⟩ := faFilter_false_cons x (gaFilter false xs)
      rw [hst] at heq
      have hx : x = "FFA" := (List.cons_eq_cons.mp heq).1
      rw [hx] at hs
      simp [gaSet] at hs

/-! ## Concrete example actions used by the claims -/

/-- A good-article nomination that was listed. -/
def ganListed (t : Int) : Action :=
  { kind := .gan, date := ⟨t, "1 January 2001"⟩, result := some "listed" }

/-- A good-article reassessment that delisted the article. -/
def garDelisted (t : Int) : Action :=
  { kind := .gar, date := ⟨t, "1 January 2001"⟩, result := some "delisted" }

/-- A featured-article review that removed featured status. -/
def farRemoved (t : Int) : Action :=
  { kind := .far, date := ⟨t, "2 February 2002"⟩, result := some "removed" }

/-- A featured-article candidacy that failed. -/
def facFailed (t : Int) : Action :=
  { kind := .fac, date := ⟨t, "2 February 2002"⟩, result := some "failed" }

/-- Token `FFA` is never dropped by the first filter: its multiplicity is
preserved (the former-featured token survives even when it is older than a
more recent GA). -/
theorem gaFilter_count_ffa (found : Bool) (l : List String) :
    (gaFilter found l).count "FFA" = l.count "FFA" := by
  induction l generalizing found with
  | nil => rfl
  | cons x xs ih =>
    by_cases hx : x = "FFA"
    · simp [gaFilter, hx, gaRemove, gaSet, List.count_cons, ih]
    · have hx2 : ¬("FFA" = x) := fun h => hx h.symm
      by_cases hr : gaRemove x = true
      · cases found
        · simp [gaFilter, hr, gaRemove_gaSet hr, List.count_cons, ih, beq_iff_eq, hx2]
        · simp [gaFilter, hr, List.count_cons, ih, beq_iff_eq, hx2]
      · by_cases hs : gaSet x = true <;>
          simp [gaFilter, hr, hs, List.count_cons, ih, beq_iff_eq, hx2]

/-! ## Sanity checks of the embedding on concrete runs -/

example : ArticleHistory.sortAndUpdateStatus { actions := [ganListed 1, facFailed 2] } =
    .ok { actions := [ganListed 1, facFailed 2], currentstatus := some "FFAC/GA" } := by
  decide

example : ArticleHistory.sortAndUpdateStatus
    { actions := [farRemoved 1, ganListed 2] } = .error "multi-status is invalid: GA/FFA" := by
  decide

/-! ## Claim theorems -/

/-- C3: walking the mapped tokens most-recent first, the engine (a) keeps
at most one GA-track token — once any GA-related token (including the
former-featured tokens `FFA`/`FA`) has been seen every older GA-track
token is dropped, while `FFA` itself is never dropped even when older —
and then (b) keeps at most one `F`-prefixed token, with `FGAN` exempt from
that cap; the first filter runs before the second. -/
theorem claim3_two_filters :
    (∀ l : List String, (gaFilter false l).countP gaRemove ≤ 1) ∧
    (∀ l : List String, gaFilter true l = l.filter fun x => !gaRemove x) ∧
    (∀ l : List String, gaFilter false l =
      (l.takeWhile fun x => !gaSet x) ++ gaRest (l.dropWhile fun x => !gaSet x)) ∧
    (∀ (found : Bool) (l : List String),
      (gaFilter found l).count "FFA" = l.count "FFA") ∧
    (∀ l : List String,
      (faFilter false l).countP (fun x => startsWithF x && !(x == "FGAN")) ≤ 1) ∧
    (∀ (found : Bool) (l : List String),
      (faFilter found l).count "FGAN" = l.count "FGAN") ∧
    (∀ l : List String, faFilter true l = l.filter faPass) ∧
    (∀ acts : List Action, computeStatus acts =
      (collectTokens acts).map fun toks =>
        String.intercalate "/" (faFilter false (gaFilter false toks.reverse))) :=
  ⟨gaFilter_false_countP, gaFilter_true, gaFilter_false_eq, gaFilter_count_ffa,
    faFilter_false_countP, faFilter_count_fgan, faFilter_true, fun _ => rfl⟩

/-- C1 (counterexample): an action set whose mapped tokens most-recent
first are `["FFA", "GA"]` resolves successfully but serializes as `"FFA"`,
not `"FFA/GA"`: the first filter drops the `GA`. -/
theorem claim1_counterexample :
    collectTokens (sortActions [ganListed 1, farRemoved 2]) = .ok ["GA", "FFA"] ∧
    gaFilter false ["FFA", "GA"] = ["FFA"] ∧
    ArticleHistory.sortAndUpdateStatus { actions := [ganListed 1, farRemoved 2] } =
      .ok { actions := [ganListed 1, farRemoved 2], currentstatus := some "FFA" } := by
  refine ⟨by decide, by decide, by decide⟩

/-- C1 (amended): a computed status containing more than one token is
accepted exactly when it is `"FFA/GA"` or `"FFAC/GA"`; the surviving token
list `["FFA", "GA"]` is in fact unreachable, so an action set mapping to
tokens `[FFA, GA]` most-recent-first serializes as `"FFA"`, while
`[FFAC, GA]` serializes as `"FFAC/GA"`. -/
theorem claim1_multi_token_whitelist :
    (∀ (ah : ArticleHistory) (s : String), ah.currentstatus = none →
      computeStatus (sortActions ah.actions) = .ok s →
      s.data.contains '/' = true →
      ((ah.sortAndUpdateStatus).isOk = true ↔ (s = "FFA/GA" ∨ s = "FFAC/GA"))) ∧
    (∀ l : List String, faFilter false (gaFilter false l) ≠ ["FFA", "GA"]) ∧
    (ArticleHistory.sortAndUpdateStatus { actions := [ganListed 1, farRemoved 2] } =
      .ok { actions := [ganListed 1, farRemoved 2], currentstatus := some "FFA" }) ∧
    (ArticleHistory.sortAndUpdateStatus { actions := [ganListed 1, facFailed 2] } =
      .ok { actions := [ganListed 1, facFailed 2], currentstatus := some "FFAC/GA" }) := by
  refine ⟨?_, ffa_ga_unreachable, by decide, by decide⟩
  intro ah s hcs hcomp hsl
  simp only [ArticleHistory.sortAndUpdateStatus, hcomp, hcs]
  have hmem : '/' ∈ s.data := by simpa using hsl
  by_cases hw : s = "FFA/GA" ∨ s = "FFAC/GA"
  · have hbe : (s == "FFA/GA" || s == "FFAC/GA") = true := by
      rcases hw with h | h <;> simp [h]
    simp [hbe, hw, Except.isOk, Except.toBool]
  · have hbe : (s == "FFA/GA" || s == "FFAC/GA") = false := by
      rcases not_or.mp hw with ⟨h1, h2⟩
      simp [beq_iff_eq, h1, h2]
    simp [hbe, hsl, hmem, hw, Except.isOk, Except.toBool]

/-- C1 (witness): a concrete multi-token, non-whitelisted computation
(`"GA/FFA"`) is rejected. -/
theorem claim1_witness :
    ((ArticleHistory.sortAndUpdateStatus { actions := [farRemoved 1, ganListed 2] }).isOk
        = true ↔ (("GA/FFA" : String) = "FFA/GA" ∨ ("GA/FFA" : String) = "FFAC/GA")) :=
  claim1_multi_token_whitelist.1 { actions := [farRemoved 1, ganListed 2] } "GA/FFA"
    rfl (by decide) (by decide)

/-- A successful `sort_and_update_status` always stores the computed
status string into `currentstatus`. -/
theorem sau_ok_currentstatus {ah ah2 : ArticleHistory}
    (h : ah.sortAndUpdateStatus = .ok ah2) :
    ∃ s, computeStatus (sortActions ah.actions) = .ok s ∧ ah2.currentstatus = some s := by
  unfold ArticleHistory.sortAndUpdateStatus at h
  split at h
  next e heq => exact Except.noConfusion h
  next status heq =>
    refine ⟨status, heq, ?_⟩
    split at h
    · exact Except.noConfusion h
    · split at h
      · exact Except.noConfusion h
      · injection h with h2
        rw [← h2]

/-- C2 (counterexample): a declared status that is NOT one of the
`/`-separated components of the computed multi-token status can still be
accepted, because the code's check is a plain substring test: declared
`"C"` against computed `"FFAC/GA"` succeeds (via the `"C/"` substring) and
is silently overwritten. -/
theorem claim2_counterexample :
    ArticleHistory.sortAndUpdateStatus
        { actions := [ganListed 1, facFailed 2], currentstatus := some "C" } =
      .ok { actions := [ganListed 1, facFailed 2], currentstatus := some "FFAC/GA" } ∧
    (("C" : String) ≠ "FFAC" ∧ ("C" : String) ≠ "GA" ∧ ("C" : String) ≠ "FFAC/GA") := by
  refine ⟨by decide, by decide, by decide, by decide⟩

/-- C2 (amended): with a declared status present and a computed status that
passes the multi-token guard, resolution succeeds exactly when the declared
status equals the computed one or `"/declared"` or `"declared/"` occurs as
a substring of it (a weaker test than component membership); on success
`currentstatus` is always overwritten with the computed status; and the
declared-`"GA"`-versus-computed-`"FFA"` case fails. -/
theorem claim2_status_mismatch :
    (∀ (ah : ArticleHistory) (orig s : String), ah.currentstatus = some orig →
      computeStatus (sortActions ah.actions) = .ok s →
      (s.data.contains '/' = false ∨ s = "FFA/GA" ∨ s = "FFAC/GA") →
      ((ah.sortAndUpdateStatus).isOk = true ↔
        (orig = s ∨ strContains s ("/" ++ orig) = true ∨
          strContains s (orig ++ "/") = true))) ∧
    (∀ ah ah2 : ArticleHistory, ah.sortAndUpdateStatus = .ok ah2 →
      ∃ s, computeStatus (sortActions ah.actions) = .ok s ∧ ah2.currentstatus = some s) ∧
    (∃ e, ArticleHistory.sortAndUpdateStatus
        { actions := [farRemoved 1], currentstatus := some "GA" } = .error e) := by
  refine ⟨?_, fun _ _ h => sau_ok_currentstatus h, ⟨"current status mismatch", by decide⟩⟩
  intro ah orig s hcs hcomp hguard
  simp only [ArticleHistory.sortAndUpdateStatus, hcomp, hcs]
  have hbe : (s.data.contains '/' && !(s == "FFA/GA" || s == "FFAC/GA")) = false := by
    rcases hguard with h | h | h
    · have hnm : ¬('/' ∈ s.data) := by simpa using h
      simp [hnm]
    · simp [h]
    · simp [h]
  rw [if_neg (by rw [hbe]; exact Bool.false_ne_true)]
  by_cases hok : orig = s ∨ strContains s ("/" ++ orig) = true ∨
      strContains s (orig ++ "/") = true
  · have : (orig != s && !(strContains s ("/" ++ orig))
        && !(strContains s (orig ++ "/"))) = false := by
      rcases hok with h | h | h <;> simp [h, bne_iff_ne]
    simp [Option.any, this, hok, Except.isOk, Except.toBool]
  · rcases not_or.mp hok with ⟨h1, hrest⟩
    rcases not_or.mp hrest with ⟨h2, h3⟩
    have : (orig != s && !(strContains s ("/" ++ orig))
        && !(strContains s (orig ++ "/"))) = true := by
      simp [bne_iff_ne, h1, h2, h3]
    simp [Option.any, this, hok, Except.isOk, Except.toBool]

/-- C2 (witness): the amended status check instantiated at the
declared-`"C"` example. -/
theorem claim2_witness :
    ((ArticleHistory.sortAndUpdateStatus
        { actions := [ganListed 1, facFailed 2], currentstatus := some "C" }).isOk = true ↔
      (("C" : String) = "FFAC/GA" ∨ strContains "FFAC/GA" ("/" ++ "C") = true ∨
        strContains "FFAC/GA" ("C" ++ "/") = true)) :=
  claim2_status_mismatch.1 { actions := [ganListed 1, facFailed 2], currentstatus := some "C" }
    "C" "FFAC/GA" rfl (by decide) (by decide)

/-! ## Sorting lemmas for the order-invariance claim -/

/-- The strict date order on actions. -/
def actLT (a b : Action) : Prop := a.date.date < b.date.date

instance : IsTotal Action actLE := ⟨fun a b => Int.le_total a.date.date b.date.date⟩

instance : IsTrans Action actLE := ⟨fun _ _ _ hab hbc => le_trans hab hbc⟩

instance : IsAntisymm Action actLT :=
  ⟨fun _ _ h1 h2 => absurd (lt_trans h1 h2) (lt_irrefl _)⟩

/-- The sort is stable: restricted to any one date, the sorted list keeps
the input's relative order. -/
theorem filter_orderedInsert (d : Int) (a : Action) (l : List Action) :
    ((l.orderedInsert actLE a).filter fun x => x.date.date == d) =
      if a.date.date = d then a :: (l.filter fun x => x.date.date == d)
      else l.filter fun x => x.date.date == d := by
  induction l with
  | nil => by_cases h : a.date.date = d <;> simp [List.orderedInsert, h]
  | cons b m ih =>
    by_cases hab : actLE a b
    · by_cases h : a.date.date = d <;>
        simp [List.orderedInsert, hab, h, List.filter]
    · have hlt : b.date.date < a.date.date := by
        simp only [actLE, not_le] at hab
        exact hab
      by_cases h : a.date.date = d
      · have hb : ¬(b.date.date = d) := by omega
        simp [List.orderedInsert, hab, List.filter_cons, hb, ih, h]
      · simp [List.orderedInsert, hab, List.filter_cons, ih, h]

/-- Stability of `sortActions`, expressed per date value. -/
theorem sortActions_stable (l : List Action) (d : Int) :
    ((sortActions l).filter fun x => x.date.date == d) =
      l.filter fun x => x.date.date == d := by
  induction l with
  | nil => rfl
  | cons a m ih =>
    rw [show sortActions (a :: m) = List.orderedInsert actLE a (sortActions m) from rfl,
      filter_orderedInsert]
    by_cases h : a.date.date = d <;> simp [h, List.filter_cons, ih]

/-- Two permuted action lists with pairwise distinct dates sort to the same
list. -/
theorem sortActions_eq_of_perm {l1 l2 : List Action} (hp : l1.Perm l2)
    (hd : l1.Pairwise fun a b => a.date.date ≠ b.date.date) :
    sortActions l1 = sortActions l2 := by
  have hsym : ∀ {x y : Action},
      x.date.date ≠ y.date.date → y.date.date ≠ x.date.date :=
    fun h => Ne.symm h
  have hperm : (sortActions l1).Perm (sortActions l2) :=
    (List.perm_insertionSort actLE l1).trans
      (hp.trans (List.perm_insertionSort actLE l2).symm)
  have hd1 : (sortActions l1).Pairwise fun a b => a.date.date ≠ b.date.date :=
    ((List.perm_insertionSort actLE l1).pairwise_iff hsym).mpr hd
  have hd2 : (sortActions l2).Pairwise fun a b => a.date.date ≠ b.date.date :=
    ((List.perm_insertionSort actLE l2).pairwise_iff hsym).mpr
      ((hp.pairwise_iff hsym).mp hd)
  have hs1 : (sortActions l1).Pairwise actLE := List.sorted_insertionSort actLE l1
  have hs2 : (sortActions l2).Pairwise actLE := List.sorted_insertionSort actLE l2
  have hstrict1 : (sortActions l1).Pairwise actLT :=
    (hs1.and hd1).imp fun h => lt_of_le_of_ne h.1 h.2
  have hstrict2 : (sortActions l2).Pairwise actLT :=
    (hs2.and hd2).imp fun h => lt_of_le_of_ne h.1 h.2
  exact List.eq_of_perm_of_sorted hperm hstrict1 hstrict2

/-- C5 (counterexample): two permutations of the same two-action multiset
(equal dates) resolve to different statuses, `"DGA"` versus `"GA"`. -/
theorem claim5_counterexample :
    ([ganListed 1, garDelisted 1] : List Action).Perm [garDelisted 1, ganListed 1] ∧
    ArticleHistory.sortAndUpdateStatus { actions := [ganListed 1, garDelisted 1] } =
      .ok { actions := [ganListed 1, garDelisted 1], currentstatus := some "DGA" } ∧
    ArticleHistory.sortAndUpdateStatus { actions := [garDelisted 1, ganListed 1] } =
      .ok { actions := [garDelisted 1, ganListed 1], currentstatus := some "GA" } ∧
    (some "DGA" : Option String) ≠ some "GA" := by
  refine ⟨by decide, by decide, by decide, by decide⟩

/-- C5 (amended): the resolve output is permutation-invariant when the
actions carry pairwise distinct dates; the sort is stable (ties keep input
order, preserved per date value) and sorts ascending by date; with equal
dates the input order can change the output (see the counterexample). -/
theorem claim5_order_invariance :
    (∀ (ah : ArticleHistory) (acts2 : List Action), ah.actions.Perm acts2 →
      (ah.actions.Pairwise fun a b => a.date.date ≠ b.date.date) →
      ah.sortAndUpdateStatus =
        ({ ah with actions := acts2 } : ArticleHistory).sortAndUpdateStatus) ∧
    (∀ l : List Action, (sortActions l).Sorted actLE) ∧
    (∀ (l : List Action) (d : Int),
      ((sortActions l).filter fun x => x.date.date == d) =
        l.filter fun x => x.date.date == d) := by
  refine ⟨?_, fun l => List.sorted_insertionSort actLE l, sortActions_stable⟩
  intro ah acts2 hp hd
  have hsort : sortActions ah.actions = sortActions acts2 :=
    sortActions_eq_of_perm hp hd
  simp only [ArticleHistory.sortAndUpdateStatus, hsort]

/-- C5 (witness): permutation invariance applied to two distinct-date
permutations of the same multiset. -/
theorem claim5_witness :
    ({ actions := [farRemoved 2, ganListed 1] } : ArticleHistory).sortAndUpdateStatus =
      ({ actions := [ganListed 1, farRemoved 2] } : ArticleHistory).sortAndUpdateStatus :=
  claim5_order_invariance.1 { actions := [farRemoved 2, ganListed 1] }
    [ganListed 1, farRemoved 2] (by decide) (by decide)

/-- All-administrative action lists produce no token. -/
theorem collectTokens_all_none {l : List Action}
    (h : ∀ a ∈ l, a.optToCurrentStatus = .ok none) : collectTokens l = .ok [] := by
  induction l with
  | nil => rfl
  | cons a m ih =>
    have ha := h a (List.mem_cons_self a m)
    have hm := ih fun b hb => h b (List.mem_cons_of_mem a hb)
    simp [collectTokens, ha, hm]

/-- C10: a successful resolution always sets `currentstatus` (to the empty
string when no action yields a token), and consequently a non-empty
declared status combined with token-free actions always fails with the
status-mismatch error. -/
theorem claim10_currentstatus_always_set :
    (∀ ah ah2 : ArticleHistory, ah.sortAndUpdateStatus = .ok ah2 →
      ∃ s, ah2.currentstatus = some s) ∧
    (∀ (ah : ArticleHistory) (orig : String), ah.currentstatus = some orig →
      orig ≠ "" → (∀ a ∈ ah.actions, a.optToCurrentStatus = .ok none) →
      ∃ e, ah.sortAndUpdateStatus = .error e) := by
  constructor
  · intro ah ah2 h
    obtain ⟨s, _, h2⟩ := sau_ok_currentstatus h
    exact ⟨s, h2⟩
  · intro ah orig hcs hne hall
    have hmem : ∀ a ∈ sortActions ah.actions, a.optToCurrentStatus = .ok none :=
      fun a ha => hall a ((List.perm_insertionSort actLE ah.actions).subset ha)
    have htoks : collectTokens (sortActions ah.actions) = .ok [] :=
      collectTokens_all_none hmem
    have hcomp : computeStatus (sortActions ah.actions) = .ok "" := by
      simp [computeStatus, htoks]
      rfl
    have hdata : ("" : String).data = [] := rfl
    have h1 : strContains "" ("/" ++ orig) = false := by
      simp only [strContains, hdata, decide_eq_false_iff_not, List.infix_nil]
      intro h
      have : ("/" ++ orig).data = "/".data ++ orig.data := String.data_append "/" orig
      rw [this] at h
      simp at h
    have h2 : strContains "" (orig ++ "/") = false := by
      simp only [strContains, hdata, decide_eq_false_iff_not, List.infix_nil]
      intro h
      have : (orig ++ "/").data = orig.data ++ "/".data := String.data_append orig "/"
      rw [this] at h
      simp at h
    refine ⟨"current status mismatch", ?_⟩
    simp only [ArticleHistory.sortAndUpdateStatus, hcomp, hcs]
    have hcond : (orig != "" && !(strContains "" ("/" ++ orig))
        && !(strContains "" (orig ++ "/"))) = true := by
      simp [bne_iff_ne, hne, h1, h2]
    simp [Option.any, hcond]

/-- C10 (witness): the empty aggregate resolves with `currentstatus` set to
`some ""`, and a declared `"GA"` with no actions fails. -/
theorem claim10_witness :
    (∃ s, ({ currentstatus := some "" } : ArticleHistory).currentstatus = some s) ∧
    (∃ e, ({ currentstatus := some "GA" } : ArticleHistory).sortAndUpdateStatus
      = .error e) :=
  ⟨claim10_currentstatus_always_set.1 {} { currentstatus := some "" } (by decide),
    claim10_currentstatus_always_set.2 { currentstatus := some "GA" } "GA" rfl
      (by decide) (by simp)⟩

/-- C4: the `(kind, lowercased result)` lookup table: the six spot-checked
entries hold; the thirteen administrative kinds yield no token for any
result; and for each result-requiring kind decoding succeeds exactly on
the listed result texts, everything else (including a missing result)
being a hard error; `RBP` always errors. -/
theorem claim4_action_table :
    (∀ (d : PreserveDate) (l o : Option String),
      (Action.mk .fac d l (some "promoted") o).optToCurrentStatus = .ok (some "FA") ∧
      (Action.mk .fac d l (some "Promoted") o).optToCurrentStatus = .ok (some "FA") ∧
      (Action.mk .fac d l (some "failed") o).optToCurrentStatus = .ok (some "FFAC") ∧
      (Action.mk .far d l (some "removed") o).optToCurrentStatus = .ok (some "FFA") ∧
      (Action.mk .gan d l (some "listed") o).optToCurrentStatus = .ok (some "GA") ∧
      (Action.mk .gan d l (some "failed") o).optToCurrentStatus = .ok (some "FGAN") ∧
      (Action.mk .gar d l (some "delisted") o).optToCurrentStatus = .ok (some "DGA")) ∧
    (∀ (k : ActionKind) (d : PreserveDate) (l r o : Option String),
      k ∈ ([.bp, .ftc, .ftr, .gtc, .pr, .wpr, .war, .afd, .mfd, .tfd, .csd,
        .prod, .drv] : List ActionKind) →
      (Action.mk k d l r o).optToCurrentStatus = .ok none) ∧
    (∀ (d : PreserveDate) (l r o : Option String),
      ((Action.mk .fac d l r o).optToCurrentStatus.isOk = true ↔
        r.map asciiLower ∈ [some "promoted", some "pass", some "passed",
          some "not promoted", some "fail", some "failed"]) ∧
      ((Action.mk .far d l r o).optToCurrentStatus.isOk = true ↔
        r.map asciiLower ∈ [some "kept", some "pass", some "passed", some "keep",
          some "demoted", some "removed", some "remove", some "fail", some "failed"]) ∧
      ((Action.mk .flc d l r o).optToCurrentStatus.isOk = true ↔
        r.map asciiLower ∈ [some "promoted", some "pass", some "passed",
          some "not promoted", some "fail", some "failed"]) ∧
      ((Action.mk .flr d l r o).optToCurrentStatus.isOk = true ↔
        r.map asciiLower ∈ [some "kept", some "pass", some "passed", some "keep",
          some "demoted", some "removed", some "remove", some "fail", some "failed"]) ∧
      ((Action.mk .fproc d l r o).optToCurrentStatus.isOk = true ↔
        r.map asciiLower ∈ [some "promoted", some "pass", some "passed",
          some "not promoted", some "fail", some "failed"]) ∧
      ((Action.mk .fpor d l r o).optToCurrentStatus.isOk = true ↔
        r.map asciiLower ∈ [some "kept", some "pass", some "passed", some "keep",
          some "demoted", some "removed", some "remove", some "fail", some "failed"]) ∧
      ((Action.mk .gan d l r o).optToCurrentStatus.isOk = true ↔
        r.map asciiLower ∈ [some "listed", some "promoted", some "pass", some "passed",
          some "not listed", some "not promoted", some "fail", some "failed"]) ∧
      ((Action.mk .gar d l r o).optToCurrentStatus.isOk = true ↔
        r.map asciiLower ∈ [some "kept", some "pass", some "passed", some "keep",
          some "delisted", some "fail", some "failed"]) ∧
      (∃ e, (Action.mk .rbp d l r o).optToCurrentStatus = .error e)) := by
  refine ⟨fun d l o => ⟨rfl, rfl, rfl, rfl, rfl, rfl, rfl⟩, ?_, ?_⟩
  · intro k d l r o hk
    fin_cases hk <;> rfl
  · intro d l r o
    refine ⟨?_, ?_, ?_, ?_, ?_, ?_, ?_, ?_, ⟨"idk how to deal with rbp", rfl⟩⟩ <;>
    · cases r with
      | none => simp [Action.optToCurrentStatus, Except.isOk, Except.toBool]
      | some s =>
        simp only [Action.optToCurrentStatus]
        split
        next h =>
          simp_all [Except.isOk, Except.toBool]
          try tauto
        next h =>
          split
          next h2 =>
            simp_all [Except.isOk, Except.toBool]
            try tauto
          next h2 =>
            simp_all [Except.isOk, Except.toBool]
            try tauto

/-! ## The parameter builder (`builder.rs`) and the record serializers
(`AddToParams` impls in `types.rs`) -/

/-- The `{{subst:User:0xDeadbeef/newline}}` marker `ParamBuilder::addnl`
and `ParamBuilder::newline` append to values. -/
def nlMarker : String := "\x7b\x7bsubst:User:0xDeadbeef/newline\x7d\x7d"

/-- The `{{subst:null}}` marker `ParamBuilder::add` appends to keys. -/
def nullMarker : String := "\x7b\x7bsubst:null\x7d\x7d"

/-- An ordered parameter list, the model of `parsoid::map::IndexMap`. -/
abbrev Params := List (String × String)

/-- From `IndexMap::insert`: replace in place when the key exists, else append. -/
def pbInsert (ps : Params) (k v : String) : Params :=
  if ps.any fun p => p.1 == k then
    ps.map fun p => if p.1 == k then (k, v) else p
  else ps ++ [(k, v)]

/-- From `ParamBuilder::add`: the key gets the `{{subst:null}}` parser trick. -/
def pbAdd (ps : Params) (k v : String) : Params := pbInsert ps (k ++ nullMarker) v

/-- From `ParamBuilder::addnl`: the value gets the newline marker. -/
def pbAddnl (ps : Params) (k v : String) : Params := pbAdd ps k (v ++ nlMarker)

/-- From `ParamBuilder::add_opt`. -/
def pbAddOpt (ps : Params) (k : String) : Option String → Params
  | none => ps
  | some v => pbAdd ps k v

/-- From `ParamBuilder::addnl_opt`. -/
def pbAddnlOpt (ps : Params) (k : String) : Option String → Params
  | none => ps
  | some v => pbAddnl ps k v

/-- From `ParamBuilder::add_flag`: emitted only when true, as `yes`. -/
def pbAddFlag (ps : Params) (k : String) (b : Bool) : Params :=
  if b then pbAdd ps k "yes" else ps

/-- From `ParamBuilder::addnl_flag`. -/
def pbAddnlFlag (ps : Params) (k : String) (b : Bool) : Params :=
  if b then pbAddnl ps k "yes" else ps

/-- From `ParamBuilder::newline`: append the newline marker to the last value
(the Rust code unwraps; an empty list never occurs on the call sites). -/
def pbNewline : Params → Params
  | [] => []
  | [(k, v)] => [(k, v ++ nlMarker)]
  | p :: ps => p :: pbNewline ps

/-- From `impl AddToParams for Action` in `types.rs`. -/
def Action.addToParams (a : Action) (i : Nat) (ps : Params) : Params :=
  let ps := pbAddnl ps ("action" ++ toString i) a.kind.asStr
  let ps := pbAddnl ps ("action" ++ toString i ++ "date") a.date.orig
  let ps := pbAddnlOpt ps ("action" ++ toString i ++ "link") a.link
  let ps := pbAddnlOpt ps ("action" ++ toString i ++ "result") a.result
  let ps := pbAddnlOpt ps ("action" ++ toString i ++ "oldid") a.oldid
  pbNewline ps

/-- From `impl AddToParams for Dyk` in `types.rs`: index 1 is unsuffixed. -/
def Dyk.addToParams (x : Dyk) (i : Nat) (ps : Params) : Params :=
  let suf := if i = 1 then "" else toString i
  let ps := pbAdd ps ("dyk" ++ suf ++ "date") x.date.orig
  let ps := pbAddOpt ps ("dyk" ++ suf ++ "entry") x.entry
  let ps := pbAddOpt ps ("dyk" ++ suf ++ "nom") x.nom
  let ps := pbAddFlag ps ("dyk" ++ suf ++ "ignoreerror") x.ignoreerror
  pbNewline ps

/-- From `impl AddToParams for Itn` in `types.rs`: note that index 1 is NOT
special-cased, the key is always `itn{i}date`. -/
def Itn.addToParams (x : Itn) (i : Nat) (ps : Params) : Params :=
  let ps := pbAdd ps ("itn" ++ toString i ++ "date") x.date.orig
  let ps := pbAddOpt ps ("itn" ++ toString i ++ "link") x.link
  pbNewline ps

/-- From `impl AddToParams for Otd` in `types.rs`: index 1 is NOT special-cased
either, the key is always `otd{i}date`. -/
def Otd.addToParams (x : Otd) (i : Nat) (ps : Params) : Params :=
  let ps := pbAdd ps ("otd" ++ toString i ++ "date") x.date.orig
  let ps := pbAddOpt ps ("otd" ++ toString i ++ "oldid") x.oldid
  let ps := pbAddOpt ps ("otd" ++ toString i ++ "link") x.link
  pbNewline ps

/-- From `impl AddToParams for FeaturedTopic` in `types.rs`: index 1 unsuffixed. -/
def FeaturedTopic.addToParams (x : FeaturedTopic) (i : Nat) (ps : Params) : Params :=
  let suf := if i = 1 then "" else toString i
  let ps := pbAddnl ps ("ft" ++ suf ++ "name") x.name
  pbAddnlFlag ps ("ft" ++ suf ++ "main") x.main

/-- From `ParamBuilder::add_all`: records are numbered from 1 in list order. -/
def pbAddAllFrom {α : Type} (f : α → Nat → Params → Params) :
    Nat → List α → Params → Params
  | _, [], ps => ps
  | i, x :: xs, ps => pbAddAllFrom f (i + 1) xs (f x i ps)

/-- From `ParamBuilder::add_all`, starting at index 1. -/
def pbAddAll {α : Type} (f : α → Nat → Params → Params)
    (xs : List α) (ps : Params) : Params :=
  pbAddAllFrom f 1 xs ps

/-- From `ArticleHistory::into_template` in `types.rs`: resolve the status,
then emit every field group in the fixed order. -/
def ArticleHistory.intoTemplateParams (ah : ArticleHistory) : Except String Params :=
  match ah.sortAndUpdateStatus with
  | .error e => .error e
  | .ok ah2 =>
    let ps : Params := []
    let ps := pbAddAll (fun a i ps => a.addToParams i ps) ah2.actions ps
    let ps := pbAddnlOpt ps "currentstatus" ah2.currentstatus
    let ps := pbAddnlOpt ps "maindate" (ah2.maindate.map PreserveDate.orig)
    let ps := pbAddnlOpt ps "maindate2" (ah2.maindate2.map PreserveDate.orig)
    let ps := pbAddAll (fun x i ps => x.addToParams i ps) ah2.itns ps
    let ps := pbAddAll (fun x i ps => x.addToParams i ps) ah2.dyks ps
    let ps := pbAddAll (fun x i ps => x.addToParams i ps) ah2.otds ps
    let ps := pbAddnlFlag ps "four" ah2.four
    let ps := pbAddAll (fun x i ps => x.addToParams i ps) ah2.featured_topics ps
    let ps := pbAddnlOpt ps "topic" ah2.topic
    let ps := pbAddnlFlag ps "collapse" ah2.collapse
    let ps := pbAddnlFlag ps "small" ah2.small
    .ok ps

/-! ## Round-trip date fidelity -/

/-- Looking up the just-inserted key always yields the new value, whether
the insert replaced in place or appended. -/
theorem lookup_pbInsert (ps : Params) (k v : String) :
    List.lookup k (pbInsert ps k v) = some v := by
  induction ps with
  | nil => simp [pbInsert, List.lookup]
  | cons p ps ih =>
    rcases p with ⟨pk, pv⟩
    by_cases hp : pk = k
    · simp [pbInsert, List.any_cons, hp, List.lookup]
    · have hpb : (pk == k) = false := beq_eq_false_iff_ne.mpr hp
      have hkb : (k == pk) = false := beq_eq_false_iff_ne.mpr fun h => hp h.symm
      by_cases ha : (ps.any fun q => q.1 == k) = true
      · have hstep : pbInsert ((pk, pv) :: ps) k v =
            (pk, pv) :: (ps.map fun q => if q.1 == k then (k, v) else q) := by
          simp [pbInsert, List.any_cons, hpb, ha, hp]
        have hmap : List.lookup k (ps.map fun q => if q.1 == k then (k, v) else q)
            = some v := by
          have h2 := ih
          rw [pbInsert, if_pos ha] at h2
          exact h2
        rw [hstep]
        simp only [List.lookup, hkb]
        exact hmap
      · have hstep : pbInsert ((pk, pv) :: ps) k v = (pk, pv) :: (ps ++ [(k, v)]) := by
          simp [pbInsert, List.any_cons, hpb, ha]
        have htail : List.lookup k (ps ++ [(k, v)]) = some v := by
          have h2 := ih
          rw [pbInsert, if_neg ha] at h2
          exact h2
        rw [hstep]
        simp only [List.lookup, hkb]
        exact htail

theorem str_eq_of_data {s t : String} (h : s.data = t.data) : s = t := by
  cases s
  cases t
  exact congrArg String.mk h

theorem append_ne_left {t u : String} (s : String) (h : t ≠ u) :
    s ++ t ≠ s ++ u := by
  intro he
  apply h
  apply str_eq_of_data
  have h2 := congrArg String.data he
  rw [String.data_append, String.data_append] at h2
  exact List.append_cancel_left h2

/-- C6: a successfully parsed date keeps its input text verbatim in
`orig`; the serialized `action{i}date`, `itn{i}date`, `otd{i}date`,
`dyk date` and `maindate` parameter values are the stored `orig` followed
only by the fixed newline marker(s); and serialization never looks at the
parsed instant — replacing it changes nothing. -/
theorem claim6_date_fidelity :
    (∀ (parse : String → Except String Int) (x : String) (pd : PreserveDate),
      PreserveDate.tryFromString parse x = .ok pd → pd.orig = x) ∧
    (∀ (a : Action) (i : Nat),
      List.lookup ("action" ++ toString i ++ "date" ++ nullMarker) (a.addToParams i []) =
          some (a.date.orig ++ nlMarker) ∨
        List.lookup ("action" ++ toString i ++ "date" ++ nullMarker) (a.addToParams i []) =
          some (a.date.orig ++ nlMarker ++ nlMarker)) ∧
    (∀ (x : Itn) (i : Nat),
      List.lookup ("itn" ++ toString i ++ "date" ++ nullMarker) (x.addToParams i []) =
          some x.date.orig ∨
        List.lookup ("itn" ++ toString i ++ "date" ++ nullMarker) (x.addToParams i []) =
          some (x.date.orig ++ nlMarker)) ∧
    (∀ (x : Otd) (i : Nat),
      List.lookup ("otd" ++ toString i ++ "date" ++ nullMarker) (x.addToParams i []) =
          some x.date.orig ∨
        List.lookup ("otd" ++ toString i ++ "date" ++ nullMarker) (x.addToParams i []) =
          some (x.date.orig ++ nlMarker)) ∧
    (∀ x : Dyk,
      List.lookup ("dykdate" ++ nullMarker) (x.addToParams 1 []) = some x.date.orig ∨
        List.lookup ("dykdate" ++ nullMarker) (x.addToParams 1 []) =
          some (x.date.orig ++ nlMarker)) ∧
    (∀ (ps : Params) (pd : PreserveDate),
      List.lookup ("maindate" ++ nullMarker) (pbAddnl ps "maindate" pd.orig) =
        some (pd.orig ++ nlMarker)) ∧
    (∀ (a : Action) (i : Nat) (t : Int) (ps : Params),
      ({ a with date := ⟨t, a.date.orig⟩ } : Action).addToParams i ps =
        a.addToParams i ps) ∧
    (∀ (x : Otd) (i : Nat) (t : Int) (ps : Params),
      ({ x with date := ⟨t, x.date.orig⟩ } : Otd).addToParams i ps =
        x.addToParams i ps) ∧
    (∀ (x : Itn) (i : Nat) (t : Int) (ps : Params),
      ({ x with date := ⟨t, x.date.orig⟩ } : Itn).addToParams i ps =
        x.addToParams i ps) ∧
    (∀ (x : Dyk) (i : Nat) (t : Int) (ps : Params),
      ({ x with date := ⟨t, x.date.orig⟩ } : Dyk).addToParams i ps =
        x.addToParams i ps) := by
  refine ⟨?_, ?_, ?_, ?_, ?_, ?_, fun a i t ps => rfl, fun x i t ps => rfl,
    fun x i t ps => rfl, fun x i t ps => rfl⟩
  · intro parse x pd h
    unfold PreserveDate.tryFromString at h
    rcases hp : parse x with e | d <;> rw [hp] at h
    · exact Except.noConfusion h
    · injection h with h2
      rw [← h2]
  · intro a i
    have key_ne : ∀ p q : String, p ≠ q →
        ((("action" : String) ++ (toString i ++ p)) ==
          (("action" : String) ++ (toString i ++ q))) = false :=
      fun p q h => beq_eq_false_iff_ne.mpr
        (append_ne_left "action" (append_ne_left (toString i) h))
    rcases a with ⟨k, d, link, result, oldid⟩
    rcases link with _ | lv <;> rcases result with _ | rv <;> rcases oldid with _ | ov <;>
      simp +decide [Action.addToParams, pbAddnl, pbAdd, pbAddnlOpt, pbInsert,
        pbNewline, List.lookup, String.append_assoc, nullMarker, nlMarker, key_ne]
  · intro x i
    have key_ne : ∀ p q : String, p ≠ q →
        ((("itn" : String) ++ (toString i ++ p)) ==
          (("itn" : String) ++ (toString i ++ q))) = false :=
      fun p q h => beq_eq_false_iff_ne.mpr
        (append_ne_left "itn" (append_ne_left (toString i) h))
    rcases x with ⟨d, link⟩
    rcases link with _ | lv <;>
      simp +decide [Itn.addToParams, pbAdd, pbAddOpt, pbInsert,
        pbNewline, List.lookup, String.append_assoc, nullMarker, nlMarker, key_ne]
  · intro x i
    have key_ne : ∀ p q : String, p ≠ q →
        ((("otd" : String) ++ (toString i ++ p)) ==
          (("otd" : String) ++ (toString i ++ q))) = false :=
      fun p q h => beq_eq_false_iff_ne.mpr
        (append_ne_left "otd" (append_ne_left (toString i) h))
    rcases x with ⟨d, oldid, link⟩
    rcases oldid with _ | ov <;> rcases link with _ | lv <;>
      simp +decide [Otd.addToParams, pbAdd, pbAddOpt, pbInsert,
        pbNewline, List.lookup, String.append_assoc, nullMarker, nlMarker, key_ne]
  · intro x
    rcases x with ⟨d, entry, nom, ige⟩
    rcases entry with _ | ev <;> rcases nom with _ | nv <;> rcases ige with _ | _ <;>
      simp +decide [Dyk.addToParams, pbAdd, pbAddOpt, pbAddFlag, pbInsert,
        pbNewline, List.lookup, String.append_assoc, nullMarker, nlMarker]
  · intro ps pd
    exact lookup_pbInsert ps ("maindate" ++ nullMarker) (pd.orig ++ nlMarker)

/-! ## Templates, the bot-exclusion check and the fold loop -/

/-- The document-model template: a name plus ordered parameters. -/
structure Template where
  name : String
  params : Params
deriving Repr, DecidableEq

/-- From `parsoid::Template::param`. -/
def Template.param (t : Template) (k : String) : Option String :=
  List.lookup k t.params

/-- From `check_nobots` in `lib.rs`: `{{nobots}}`, or `{{bots}}` with
`allow=none`, `deny=all`, `optout=all`, or a `deny` list naming
`DeadbeefBot`. -/
def checkNobots (t : Template) : Bool :=
  let name := asciiLower t.name
  name == "template:nobots" ||
    (name == "template:bots" &&
      (t.param "allow" == some "none" ||
        t.param "deny" == some "all" ||
        t.param "optout" == some "all" ||
        (match t.param "deny" with
         | some x => strContains x "DeadbeefBot"
         | none => false)))

/-- Outcome of the per-page fold loop in `treat` (`articlehistory.rs`):
hitting a bot-exclusion template returns early without persisting, an
extractor error propagates, and only a completed fold reaches the
serialize/persist steps. -/
inductive FoldOutcome where
  | botExcluded
  | failed (e : String)
  | completed (ah : ArticleHistory)
deriving Repr, DecidableEq

/-- The fold loop of `treat`: each template is first checked with
`check_nobots`, then handed to the extractor dispatch, abstracted here as
`g` because the claims about the loop hold for every dispatcher. -/
def foldTemplates (g : Template → ArticleHistory → Except String ArticleHistory) :
    List Template → ArticleHistory → FoldOutcome
  | [], ah => .completed ah
  | t :: ts, ah =>
    if checkNobots t then .botExcluded
    else
      match g t ah with
      | .error e => .failed e
      | .ok ah2 => foldTemplates g ts ah2

/-! ## The OTD extractor (`articlehistory/extractors/otd.rs`) and the DYK
schema (`articlehistory/extractors/dyk.rs`) -/

/-- From `IndexMap::swap_remove` by key: returns the removed value and the
remaining parameters (the order perturbation of `swap_remove` does not
affect any use site, which only tests membership and emptiness). -/
def swapRemove : Params → String → Option (String × Params)
  | [], _ => none
  | (pk, pv) :: ps, k =>
    if pk == k then some (pv, ps)
    else (swapRemove ps k).map fun r => (r.1, (pk, pv) :: r.2)

theorem swapRemove_length {ps : Params} {k v : String} {ps2 : Params}
    (h : swapRemove ps k = some (v, ps2)) : ps2.length + 1 = ps.length := by
  induction ps generalizing ps2 with
  | nil => simp [swapRemove] at h
  | cons p rest ih =>
    rcases p with ⟨pk, pv⟩
    by_cases hk : (pk == k) = true
    · simp [swapRemove, hk] at h
      simp [← h.2]
    · simp only [swapRemove, hk, if_false, Bool.false_eq_true, Option.map_eq_some'] at h
      obtain ⟨⟨rv, rps⟩, hr, heq⟩ := h
      cases heq
      simp [← ih hr]

/-- Membership of a key different from the removed one is preserved. -/
theorem swapRemove_mem {ps : Params} {key d : String} {ps2 : Params}
    (h : swapRemove ps key = some (d, ps2)) {k v : String}
    (hm : (k, v) ∈ ps) (hk : k ≠ key) : (k, v) ∈ ps2 := by
  induction ps generalizing ps2 with
  | nil => simp [swapRemove] at h
  | cons p rest ih =>
    rcases p with ⟨pk, pv⟩
    by_cases hke : (pk == key) = true
    · simp [swapRemove, hke] at h
      rcases List.mem_cons.mp hm with h2 | h2
      · rw [Prod.mk.injEq] at h2
        obtain ⟨hk2, _⟩ := h2
        subst hk2
        exact absurd (by simpa using hke) hk
      · rw [← h.2]
        exact h2
    · simp only [swapRemove, hke, if_false, Bool.false_eq_true,
        Option.map_eq_some'] at h
      obtain ⟨⟨rv, rps⟩, hr, heq⟩ := h
      cases heq
      rcases List.mem_cons.mp hm with h2 | h2
      · rw [h2]
        exact List.mem_cons_self _ _
      · exact List.mem_cons_of_mem _ (ih hr h2)

/-- The `for n in 1..` loop of `OtdExtractor::extract`: remove `date{n}`
(break if absent), remove `oldid{n}` (break if absent), parse the date
(hard error on failure), recurse. Returns the collected records and the
leftover parameters. -/
def otdLoop (parse : String → Except String Int) (n : Nat) (ps : Params) :
    Except String (List (PreserveDate × String) × Params) :=
  match h1 : swapRemove ps ("date" ++ toString n) with
  | none => .ok ([], ps)
  | some (d, ps1) =>
    match h2 : swapRemove ps1 ("oldid" ++ toString n) with
    | none => .ok ([], ps1)
    | some (oldid, ps2) =>
      match PreserveDate.tryFromString parse d with
      | .error e => .error e
      | .ok pd =>
        match otdLoop parse (n + 1) ps2 with
        | .error e => .error e
        | .ok (rest, psr) => .ok ((pd, oldid) :: rest, psr)
termination_by ps.length
decreasing_by
  have l1 := swapRemove_length h1
  have l2 := swapRemove_length h2
  omega

/-- From `OtdExtractor::extract`: run the loop from `n = 1`, then reject
any leftover parameter as unrecognized. -/
def otdExtract (parse : String → Except String Int) (t : Template) :
    Except String (List (PreserveDate × String)) :=
  match otdLoop parse 1 t.params with
  | .error e => .error e
  | .ok (otds, rest) =>
    if rest.isEmpty then .ok otds else .error "unrecognized parameters"

/-- The parameter names accepted by the `Dyk` schema in
`articlehistory/extractors/dyk.rs` (serde field names and renames). -/
def dykAllowed : List String := ["1", "2", "3", "entry", "nompage", "views", "image"]

/-- The decoded `Dyk` value of `articlehistory/extractors/dyk.rs`. -/
structure DykV where
  date : String
  two : Option String := none
  three : Option String := none
  entry : Option String := none
  nompage : Option String := none
deriving Repr, DecidableEq

/-- The serde decode of the `#[serde(deny_unknown_fields)] struct Dyk` in
`articlehistory/extractors/dyk.rs`: any parameter name outside the schema
is an error, the required field `1` must be present, every other field is
optional. -/
def dykDecode (t : Template) : Except String DykV :=
  if t.params.any fun p => !(dykAllowed.contains p.1) then
    .error "unrecognized parameter"
  else
    match List.lookup "1" t.params with
    | none => .error "missing field 1"
    | some d =>
      .ok { date := d, two := List.lookup "2" t.params,
            three := List.lookup "3" t.params,
            entry := List.lookup "entry" t.params,
            nompage := List.lookup "nompage" t.params }

/-- A parameter key that never matches `date{n}`/`oldid{n}` survives the
whole OTD loop into the leftover set. -/
theorem otdLoop_mem_aux (parse : String → Except String Int) {k v : String}
    (hk : ∀ m : Nat, k ≠ "date" ++ toString m ∧ k ≠ "oldid" ++ toString m) :
    ∀ (fuel n : Nat) (ps : Params), ps.length ≤ fuel → (k, v) ∈ ps →
      ∀ {otds rest}, otdLoop parse n ps = .ok (otds, rest) → (k, v) ∈ rest := by
  intro fuel
  induction fuel with
  | zero =>
    intro n ps hlen hm otds rest h
    have : ps = [] := List.length_eq_zero.mp (Nat.le_zero.mp hlen)
    subst this
    simp at hm
  | succ fuel ih =>
    intro n ps hlen hm otds rest h
    rw [otdLoop.eq_def] at h
    split at h
    next heq1 =>
      injection h with h
      cases h
      exact hm
    next d ps1 heq1 =>
      split at h
      next heq2 =>
        injection h with h
        cases h
        exact swapRemove_mem heq1 hm (hk n).1
      next oldid ps2 heq2 =>
        split at h
        next e heq3 => exact Except.noConfusion h
        next pd heq3 =>
          split at h
          next e heq4 => exact Except.noConfusion h
          next rest2 psr heq4 =>
            injection h with h
            cases h
            have hl1 := swapRemove_length heq1
            have hl2 := swapRemove_length heq2
            have hm2 : (k, v) ∈ ps2 :=
              swapRemove_mem heq2 (swapRemove_mem heq1 hm (hk n).1) (hk n).2
            exact ih (n + 1) ps2 (by omega) hm2 heq4

theorem otdLoop_mem (parse : String → Except String Int) {k v : String}
    (hk : ∀ m : Nat, k ≠ "date" ++ toString m ∧ k ≠ "oldid" ++ toString m)
    (n : Nat) (ps : Params) (hm : (k, v) ∈ ps)
    {otds rest} (h : otdLoop parse n ps = .ok (otds, rest)) : (k, v) ∈ rest :=
  otdLoop_mem_aux parse hk ps.length n ps (le_refl _) hm h

theorem short_ne_dateN (k : String) (hlen : k.length < 4) :
    ∀ n : Nat, k ≠ "date" ++ toString n ∧ k ≠ "oldid" ++ toString n := by
  intro n
  have hd : ("date" : String).length = 4 := rfl
  have ho : ("oldid" : String).length = 5 := rfl
  constructor
  · intro heq
    have h2 := congrArg String.length heq
    rw [String.length_append, hd] at h2
    omega
  · intro heq
    have h2 := congrArg String.length heq
    rw [String.length_append, ho] at h2
    omega

/-- C8: a parameter name outside the extractor's schema makes decoding
fail — the OTD extractor rejects any leftover name that is never of the
form `date{n}`/`oldid{n}`, the DYK schema rejects any name outside its
field list — and a block whose extraction always fails keeps the whole
fold from completing, so nothing reaches the persistence step. -/
theorem claim8_unknown_parameter_rejected :
    (∀ (parse : String → Except String Int) (t : Template) (k v : String),
      (k, v) ∈ t.params →
      (∀ n : Nat, k ≠ "date" ++ toString n ∧ k ≠ "oldid" ++ toString n) →
      ∃ e, otdExtract parse t = .error e) ∧
    (∀ (t : Template) (k v : String), (k, v) ∈ t.params →
      k ∉ dykAllowed → ∃ e, dykDecode t = .error e) ∧
    (∀ (g : Template → ArticleHistory → Except String ArticleHistory)
      (ts : List Template), (∃ t ∈ ts, ∀ a, ∃ e, g t a = .error e) →
      ∀ (ah ah2 : ArticleHistory), foldTemplates g ts ah ≠ .completed ah2) := by
  refine ⟨?_, ?_, ?_⟩
  · intro parse t k v hm hk
    rcases hres : otdLoop parse 1 t.params with e | r
    · exact ⟨e, by simp [otdExtract, hres]⟩
    · rcases r with ⟨otds, rest⟩
      have hmem := otdLoop_mem parse hk 1 t.params hm hres
      have hne : rest.isEmpty = false := by
        cases rest
        · simp at hmem
        · rfl
      exact ⟨"unrecognized parameters", by simp [otdExtract, hres, hne]⟩
  · intro t k v hm hcon
    have hany : (t.params.any fun p => !(dykAllowed.contains p.1)) = true :=
      List.any_eq_true.mpr ⟨(k, v), hm, by simp [hcon]⟩
    refine ⟨"unrecognized parameter", ?_⟩
    unfold dykDecode
    rw [if_pos hany]
  · intro g ts
    induction ts with
    | nil =>
      rintro ⟨t, hts, _⟩
      cases hts
    | cons t0 ts ih =>
      rintro ⟨t, hts, herr⟩ ah ah2
      by_cases hn : checkNobots t0 = true
      · simp [foldTemplates, hn]
      · rcases List.mem_cons.mp hts with h | h
        · subst h
          obtain ⟨e, he⟩ := herr ah
          simp [foldTemplates, hn, he]
        · rcases hg : g t0 ah with e | ah3
          · simp [foldTemplates, hn, hg]
          · simp only [foldTemplates, hn, hg, Bool.false_eq_true, if_false]
            exact ih ⟨t, h, herr⟩ ah3 ah2

/-- C8 (witness): a concrete unknown parameter in an OTD block and in a
DYK block, and a concrete failing block aborting the fold. -/
theorem claim8_witness :
    (∃ e, otdExtract (fun _ => .ok 0) ⟨"On this day", [("foo", "bar")]⟩ = .error e) ∧
    (∃ e, dykDecode ⟨"dyktalk", [("unknown", "x")]⟩ = .error e) ∧
    (foldTemplates (fun _ _ => .error "boom") [⟨"On this day", [("foo", "bar")]⟩] {} ≠
      FoldOutcome.completed {}) :=
  ⟨claim8_unknown_parameter_rejected.1 (fun _ => .ok 0) ⟨"On this day", [("foo", "bar")]⟩
      "foo" "bar" (by decide) (short_ne_dateN "foo" (by decide)),
    claim8_unknown_parameter_rejected.2.1 ⟨"dyktalk", [("unknown", "x")]⟩
      "unknown" "x" (by decide) (by decide),
    claim8_unknown_parameter_rejected.2.2 (fun _ _ => .error "boom")
      [⟨"On this day", [("foo", "bar")]⟩]
      ⟨⟨"On this day", [("foo", "bar")]⟩, by decide, fun a => ⟨"boom", rfl⟩⟩ {} {}⟩

/-- C9: a bot-exclusion template anywhere in the fold order keeps the page
from completing the fold, whatever the dispatcher does and however many
blocks were folded before it; Serialize/persist is only reached on a
completed fold. -/
theorem claim9_bot_exclusion :
    ∀ (g : Template → ArticleHistory → Except String ArticleHistory)
      (ts : List Template), (∃ t ∈ ts, checkNobots t = true) →
      ∀ (ah ah2 : ArticleHistory), foldTemplates g ts ah ≠ .completed ah2 := by
  intro g ts
  induction ts with
  | nil =>
    rintro ⟨t, hts, _⟩
    cases hts
  | cons t0 ts ih =>
    rintro ⟨t, hts, hnb⟩ ah ah2
    by_cases hn : checkNobots t0 = true
    · simp [foldTemplates, hn]
    · rcases List.mem_cons.mp hts with h | h
      · subst h
        exact absurd hnb hn
      · rcases hg : g t0 ah with e | ah3
        · simp [foldTemplates, hn, hg]
        · simp only [foldTemplates, hn, hg, Bool.false_eq_true, if_false]
          exact ih ⟨t, h, hnb⟩ ah3 ah2

/-- C9 (witness): a `{{nobots}}` template excludes the page even for a
dispatcher that succeeds on every block. -/
theorem claim9_witness :
    foldTemplates (fun _ ah => .ok ah) [⟨"Template:nobots", []⟩] {} ≠
      FoldOutcome.completed {} :=
  claim9_bot_exclusion (fun _ ah => .ok ah) [⟨"Template:nobots", []⟩]
    ⟨⟨"Template:nobots", []⟩, by decide, by decide⟩ {} {}

/-! ## The aggregate extractor (`articlehistory/extractors/articlehistory.rs`)
and the round-trip fixed-point claim -/

/-- Rust `str::starts_with` on strings. -/
def strStartsWith (s pre : String) : Bool := pre.data.isPrefixOf s.data

/-- Drop the first `n` characters (all prefixes used are ASCII, so byte
and character counts agree). -/
def strDrop (s : String) (n : Nat) : String := ⟨s.data.drop n⟩

/-- Numeric value of a digit run (the Rust `usize` parse; overflow on a
longer-than-machine-word digit run is not modelled). -/
def digitsVal (cs : List Char) : Nat :=
  cs.foldl (fun acc c => 10 * acc + (c.toNat - 48)) 0

/-- The `maybe_number_and_key!` macro of `ArticleHistoryExtractor::extract`:
split the rest of the name into a leading digit run (index, `0` when
absent) and the remaining key. -/
def splitNumKey (s : String) : Nat × String :=
  let ds := s.data.takeWhile fun c => c.isDigit
  let rest := s.data.dropWhile fun c => c.isDigit
  (if ds.isEmpty then 0 else digitsVal ds, ⟨rest⟩)

/-- Insert one `(index, key, value)` into a family, failing on a duplicate
`(index, key)` pair, as the macro's `insert(...).is_some()` check does. -/
def subInsert (m : List (Nat × Params)) (num : Nat) (key val : String) :
    Except String (List (Nat × Params)) :=
  match m with
  | [] => .ok [(num, [(key, val)])]
  | (n, sub) :: rest =>
    if n = num then
      if sub.any fun p => p.1 == key then .error "duplicate"
      else .ok ((n, sub ++ [(key, val)]) :: rest)
    else (subInsert rest num key val).map fun r => (n, sub) :: r

/-- The per-family grouping state of `ArticleHistoryExtractor::extract`. -/
structure RawGroups where
  actions : List (Nat × Params) := []
  ft : List (Nat × Params) := []
  dyk : List (Nat × Params) := []
  otd : List (Nat × Params) := []
  itn : List (Nat × Params) := []
  rest : Params := []
deriving Repr, DecidableEq

/-- One step of the grouping loop: the prefix tests run in the fixed order
`action`, `ft`, `dyk`, `otd`, `itn`; anything else goes to the plain map. -/
def groupStep (g : RawGroups) (name param : String) : Except String RawGroups :=
  if strStartsWith name "action" then
    (subInsert g.actions (splitNumKey (strDrop name 6)).1
      (splitNumKey (strDrop name 6)).2 param).map fun m => { g with actions := m }
  else if strStartsWith name "ft" then
    (subInsert g.ft (splitNumKey (strDrop name 2)).1
      (splitNumKey (strDrop name 2)).2 param).map fun m => { g with ft := m }
  else if strStartsWith name "dyk" then
    (subInsert g.dyk (splitNumKey (strDrop name 3)).1
      (splitNumKey (strDrop name 3)).2 param).map fun m => { g with dyk := m }
  else if strStartsWith name "otd" then
    (subInsert g.otd (splitNumKey (strDrop name 3)).1
      (splitNumKey (strDrop name 3)).2 param).map fun m => { g with otd := m }
  else if strStartsWith name "itn" then
    (subInsert g.itn (splitNumKey (strDrop name 3)).1
      (splitNumKey (strDrop name 3)).2 param).map fun m => { g with itn := m }
  else .ok { g with rest := g.rest ++ [(name, param)] }

/-- The grouping loop over all parameters in order. -/
def groupParams : Params → RawGroups → Except String RawGroups
  | [], g => .ok g
  | (n, v) :: ps, g =>
    match groupStep g n v with
    | .error e => .error e
    | .ok g2 => groupParams ps g2

/-- The index actually read at position `i` of the walk: families with
`start = 0` read the unsuffixed key (index `0`) in place of index 1 —
index 1 itself is never read for those families. -/
def walkIdx (start i : Nat) : Nat := if i = 1 ∧ start = 0 then 0 else i

/-- The `(1..).map_while` walk of `ArticleHistoryExtractor::extract`:
collect records at consecutive indices until the first missing one. The
fuel bound `m.length + 1` always suffices because the walk stops at the
first index not present in the family. -/
def walkFrom (m : List (Nat × Params)) (start : Nat) : Nat → Nat → List Params
  | 0, _ => []
  | fuel + 1, i =>
    match List.lookup (walkIdx start i) m with
    | none => []
    | some sub => sub :: walkFrom m start fuel (i + 1)

/-- Walk a family from index 1. -/
def walkFamily (m : List (Nat × Params)) (start : Nat) : List Params :=
  walkFrom m start (m.length + 1) 1

/-- The family arrays and leftover scalar parameters produced by
`ArticleHistoryExtractor::extract` before the final serde decode (the
claims under test concern the arrays, so the serde step is not repeated
here). -/
structure RawAh where
  actionsArr : List Params
  ftArr : List Params
  dykArr : List Params
  otdArr : List Params
  itnArr : List Params
  rest : Params
deriving Repr, DecidableEq

/-- From `ArticleHistoryExtractor::extract`: group every parameter, then walk
the five families with their respective start conventions (`actions` from
1, the other four from the unsuffixed form). -/
def ahExtract (ps : Params) : Except String RawAh :=
  match groupParams ps {} with
  | .error e => .error e
  | .ok g =>
    .ok { actionsArr := walkFamily g.actions 1, ftArr := walkFamily g.ft 0,
          dykArr := walkFamily g.dyk 0, otdArr := walkFamily g.otd 0,
          itnArr := walkFamily g.itn 0, rest := g.rest }

/-- Remove every occurrence of `pat` from `s` (used to model the host
substituting away the `{{subst:null}}` and newline markers before the
next parse). -/
def stripAllFuel (pat : List Char) : Nat → List Char → List Char
  | 0, _ => []
  | _, [] => []
  | fuel + 1, c :: cs =>
    if pat ≠ [] ∧ pat.isPrefixOf (c :: cs) then
      stripAllFuel pat fuel ((c :: cs).drop pat.length)
    else c :: stripAllFuel pat fuel cs

/-- Remove every occurrence of `pat` from `s`; the fuel `s.length` always
suffices since every step consumes at least one character. -/
def stripAll (pat : List Char) (s : List Char) : List Char :=
  stripAllFuel pat s.length s

/-- Strip both builder markers from a string. -/
def cleanStr (s : String) : String :=
  ⟨stripAll nullMarker.data (stripAll nlMarker.data s.data)⟩

/-- The canonical parameter set after the host substitutes the markers. -/
def cleanParams (ps : Params) : Params :=
  ps.map fun p => (cleanStr p.1, cleanStr p.2)

/-- The aggregate of the end-to-end scenario: one OTD record at index 1. -/
def ahOtd : ArticleHistory :=
  { otds := [⟨⟨1577836800, "January 1, 2020"⟩, some "12345", none⟩] }

/-- C7: the serialize-then-extract round trip is NOT a fixed point for an
index-1 OTD record: the serializer emits `otd1date`/`otd1oldid`, but the
extractor's walk reads the unsuffixed keys for index 1 of the OTD family,
so the record is silently dropped (`otdArr = []`). -/
theorem claim7_roundtrip_drops_otd1 :
    ahOtd.intoTemplateParams =
      .ok [("currentstatus" ++ nullMarker, "" ++ nlMarker),
        ("otd1date" ++ nullMarker, "January 1, 2020"),
        ("otd1oldid" ++ nullMarker, "12345" ++ nlMarker)] ∧
    cleanParams [("currentstatus" ++ nullMarker, "" ++ nlMarker),
        ("otd1date" ++ nullMarker, "January 1, 2020"),
        ("otd1oldid" ++ nullMarker, "12345" ++ nlMarker)] =
      [("currentstatus", ""), ("otd1date", "January 1, 2020"),
        ("otd1oldid", "12345")] ∧
    ahExtract [("currentstatus", ""), ("otd1date", "January 1, 2020"),
        ("otd1oldid", "12345")] =
      .ok { actionsArr := [], ftArr := [], dykArr := [], otdArr := [],
            itnArr := [], rest := [("currentstatus", "")] } ∧
    ahOtd.otds.length = 1 := by
  refine ⟨by decide, by decide, by decide, by decide⟩

/-- C4 (witness): the table instantiated at a concrete administrative
action (`BP`), which maps to no token. -/
theorem claim4_witness :
    (Action.mk .bp ⟨0, "1 January 2001"⟩ none (some "anything") none).optToCurrentStatus
      = .ok none :=
  claim4_action_table.2.1 .bp ⟨0, "1 January 2001"⟩ none (some "anything") none
    (by decide)

/-- C6 (witness): round-trip fidelity applied to a concrete parse. -/
theorem claim6_witness :
    (⟨0, "1 January 2001"⟩ : PreserveDate).orig = "1 January 2001" :=
  claim6_date_fidelity.1 (fun _ => .ok 0) "1 January 2001" ⟨0, "1 January 2001"⟩ rfl

end DeadbeefBot
